import Mathlib

/-!
Shallow embedding of the dairy-management Flask application (`app.py`):
the data model (dairies, products, stock-in events, sale events), the
stock-balance mutation routes, the report aggregation route, and
pagination.  Monetary quantities (`Numeric` / `Decimal` columns) are
embedded as `ℚ`; dates as year/month/day triples; a mutation request
that raises inside the transaction is an `Except.error`, leaving the
committed state unchanged.
-/

namespace DairyApp

/-- Calendar date, as produced by `datetime.strptime(s, "%Y-%m-%d").date()`. -/
structure SDate where
  year : ℕ
  month : ℕ
  day : ℕ
deriving DecidableEq

/-- Date comparison `a ≤ b` (lexicographic year, month, day), Boolean form. -/
def SDate.leb (a b : SDate) : Bool :=
  decide (a.year < b.year) ||
  (a.year == b.year && (decide (a.month < b.month) ||
    (a.month == b.month && decide (a.day ≤ b.day))))

/-- Strict date comparison `a < b`. -/
def SDate.ltb (a b : SDate) : Bool :=
  decide (a.year < b.year) ||
  (a.year == b.year && (decide (a.month < b.month) ||
    (a.month == b.month && decide (a.day < b.day))))

theorem SDate.leb_refl (a : SDate) : SDate.leb a a = true := by
  simp [SDate.leb]

theorem SDate.leb_total (a b : SDate) : SDate.leb a b = true ∨ SDate.leb b a = true := by
  simp [SDate.leb]
  omega

theorem SDate.leb_trans {a b c : SDate} (h1 : SDate.leb a b = true)
    (h2 : SDate.leb b c = true) : SDate.leb a c = true := by
  simp [SDate.leb] at *
  omega

theorem SDate.ltb_leb {a b : SDate} (h : SDate.ltb a b = true) : SDate.leb a b = true := by
  simp [SDate.ltb, SDate.leb] at *
  omega

theorem SDate.not_ltb_leb {a b : SDate} (h : SDate.ltb a b = false) : SDate.leb b a = true := by
  simp [SDate.ltb, SDate.leb] at *
  omega

theorem SDate.leb_ltb_trans {a b c : SDate} (h1 : SDate.leb a b = true)
    (h2 : SDate.ltb b c = true) : SDate.ltb a c = true := by
  simp [SDate.ltb, SDate.leb] at *
  omega

theorem SDate.ltb_ne {a b : SDate} (h : SDate.ltb a b = true) : a ≠ b := by
  intro he
  subst he
  simp [SDate.ltb] at h

/-- One decimal digit of a character, per `str.isdigit` / `int` parsing. -/
def digit? (c : Char) : Option ℕ :=
  if '0' ≤ c ∧ c ≤ '9' then some (c.toNat - '0'.toNat) else none

def digitsValAux : List Char → ℕ → Option ℕ
  | [], acc => some acc
  | c :: cs, acc =>
    match digit? c with
    | some d => digitsValAux cs (acc * 10 + d)
    | none => none

/-- Decimal value of a non-empty all-digit character list (`none` otherwise). -/
def digitsVal? (cs : List Char) : Option ℕ :=
  if cs.isEmpty then none else digitsValAux cs 0

/-- Model of `int(s)` guarded by `s.isdigit()`, as in `did and str(did).isdigit()`. -/
def strToNat? (s : String) : Option ℕ := digitsVal? s.data

/-- Split a character list at `'-'` separators, like `s.split("-")`. -/
def splitDashes : List Char → List (List Char)
  | [] => [[]]
  | c :: cs =>
    if c = '-' then [] :: splitDashes cs
    else
      match splitDashes cs with
      | g :: gs => (c :: g) :: gs
      | [] => [[c]]

def isLeap (y : ℕ) : Bool := (y % 4 == 0 && y % 100 != 0) || y % 400 == 0

def daysInMonth (y m : ℕ) : ℕ :=
  if m = 2 then (if isLeap y then 29 else 28)
  else if m = 4 ∨ m = 6 ∨ m = 9 ∨ m = 11 then 30
  else 31

/-- Result of `datetime.strptime(s, "%Y-%m-%d").date()` : `some` when the string
is a well-formed `YYYY-MM-DD` date, `none` when parsing raises `ValueError`. -/
def parseDate (s : String) : Option SDate :=
  match splitDashes s.data with
  | [ys, ms, ds] =>
    match digitsVal? ys, digitsVal? ms, digitsVal? ds with
    | some y, some m, some d =>
      if ys.length ≤ 4 ∧ ms.length ≤ 2 ∧ ds.length ≤ 2 ∧
         1 ≤ y ∧ 1 ≤ m ∧ m ≤ 12 ∧ 1 ≤ d ∧ d ≤ daysInMonth y m
      then some ⟨y, m, d⟩ else none
    | _, _, _ => none
  | _ => none

/-- Python truthiness of an optional request string: `None` and `""` are falsy. -/
def pyStrVal (o : Option String) : Option String :=
  match o with
  | none => none
  | some s => if s = "" then none else some s

/-- Date resolution `datetime.strptime(x, "%Y-%m-%d") if x else today` : the
entry routes use `request.form.get('date') or date.today().isoformat()` and the
dashboard uses `... if f1 else datetime.today().date()`; a missing or empty
string yields today (the round trip through `isoformat` parses back to today),
a present malformed string raises (`none`). -/
def parseOrToday? (o : Option String) (today : SDate) : Option SDate :=
  match pyStrVal o with
  | none => some today
  | some s => parseDate s

/-- Date parsing on the edit routes, with no default:
`datetime.strptime(request.form.get('date'), "%Y-%m-%d")` — a missing date
raises `TypeError`, a malformed one `ValueError`. -/
def parseFormDate (o : Option String) : Option SDate :=
  match o with
  | none => none
  | some s => parseDate s

/- -------------------- MODELS -------------------- -/

structure Dairy where
  id : ℕ
  name : String
  logo_path : Option String
deriving DecidableEq

structure Product where
  id : ℕ
  dairy_id : ℕ
  name : String
  unit : String
  cost_price : ℚ
  sell_price : ℚ
  min_stock : ℚ
  current_stock : ℚ
deriving DecidableEq

structure StockIn where
  id : ℕ
  dairy_id : ℕ
  product_id : ℕ
  qty : ℚ
  cost_price : ℚ
  date : SDate
  remarks : String
deriving DecidableEq

structure Sale where
  id : ℕ
  dairy_id : ℕ
  product_id : ℕ
  qty : ℚ
  selling_price : ℚ
  date : SDate
  remarks : String
deriving DecidableEq

/-- The persistent store (committed state of the SQLite database). -/
structure DB where
  dairies : List Dairy
  products : List Product
  stock_ins : List StockIn
  sales : List Sale
deriving DecidableEq

/-- Lookup `Dairy.query.get(did)` (primary key, first match). -/
def findDairy (db : DB) (did : ℕ) : Option Dairy :=
  db.dairies.find? (fun dy => dy.id == did)

/-- Lookup `Product.query.get(pid)` (primary key, first match). -/
def findProduct (db : DB) (pid : ℕ) : Option Product :=
  db.products.find? (fun p => p.id == pid)

/-- Lookup `StockIn.query.get(sid)`. -/
def findStockIn (db : DB) (sid : ℕ) : Option StockIn :=
  db.stock_ins.find? (fun e => e.id == sid)

/-- Lookup `Sale.query.get(sid)`. -/
def findSale (db : DB) (sid : ℕ) : Option Sale :=
  db.sales.find? (fun e => e.id == sid)

/-- How a mutation request can fail: `get_or_404` miss, `abort(403)`, or an
uncaught exception (500); in every case the transaction is not committed. -/
inductive Err where
  | notFound
  | forbidden
  | internal
deriving DecidableEq

/-- Update the record with primary key `sid` in place (first match). -/
def editFirstSI (sid : ℕ) (f : StockIn → StockIn) : List StockIn → List StockIn
  | [] => []
  | e :: es => if e.id == sid then f e :: es else e :: editFirstSI sid f es

/-- Update the sale with primary key `sid` in place (first match). -/
def editFirstSale (sid : ℕ) (f : Sale → Sale) : List Sale → List Sale
  | [] => []
  | e :: es => if e.id == sid then f e :: es else e :: editFirstSale sid f es

/-- Delete the record with primary key `sid` (first match). -/
def deleteFirstSale (sid : ℕ) : List Sale → List Sale
  | [] => []
  | e :: es => if e.id == sid then es else e :: deleteFirstSale sid es

/-- Delete the product with primary key `pid` (first match). -/
def deleteFirstProduct (pid : ℕ) : List Product → List Product
  | [] => []
  | p :: ps => if p.id == pid then ps else p :: deleteFirstProduct pid ps

/- -------------------- Mutation routes -------------------- -/

/-- POST branch of `stock_in_page` for acting dairy `d`: builds a `StockIn`
(raising if the date string is malformed), adds it, then bumps the product's
`current_stock` by `qty` and overwrites its `cost_price` (last-cost policy).
`Product.query.get(pid)` returning `None` raises before commit. -/
def stock_in_page (db : DB) (d : ℕ) (today : SDate) (newId pid : ℕ)
    (qty cost_price : ℚ) (dateStr : Option String) (remarks : String) : Except Err DB :=
  match parseOrToday? dateStr today with
  | none => .error .internal
  | some dt =>
    match findProduct db pid with
    | none => .error .internal
    | some _ =>
      .ok { db with
        stock_ins := db.stock_ins ++ [⟨newId, d, pid, qty, cost_price, dt, remarks⟩],
        products := db.products.map fun p =>
          if p.id == pid then
            { p with current_stock := p.current_stock + qty, cost_price := cost_price }
          else p }

/-- POST branch of `edit_stock_in`: `get_or_404`, ownership check (`abort(403)`),
then overwrite the event's fields and adjust the owning product's stock by
`new_qty - old_qty`.  The product's `cost_price` is not touched. -/
def edit_stock_in (db : DB) (d sid : ℕ) (qty cost_price : ℚ)
    (dateStr : Option String) (remarks : String) : Except Err DB :=
  match findStockIn db sid with
  | none => .error .notFound
  | some st =>
    if st.dairy_id ≠ d then .error .forbidden
    else
      match parseFormDate dateStr with
      | none => .error .internal
      | some dt =>
        match findProduct db st.product_id with
        | none => .error .internal
        | some _ =>
          .ok { db with
            stock_ins := editFirstSI sid
              (fun e => { e with qty := qty, cost_price := cost_price,
                                 date := dt, remarks := remarks }) db.stock_ins,
            products := db.products.map fun p =>
              if p.id == st.product_id then
                { p with current_stock := p.current_stock - st.qty + qty }
              else p }

/-- POST branch of `sales_page`: builds a `Sale`, adds it, decrements the
product's `current_stock` by `qty` (no availability check) and overwrites its
`sell_price` (last-price policy). -/
def sales_page (db : DB) (d : ℕ) (today : SDate) (newId pid : ℕ)
    (qty selling_price : ℚ) (dateStr : Option String) (remarks : String) : Except Err DB :=
  match parseOrToday? dateStr today with
  | none => .error .internal
  | some dt =>
    match findProduct db pid with
    | none => .error .internal
    | some _ =>
      .ok { db with
        sales := db.sales ++ [⟨newId, d, pid, qty, selling_price, dt, remarks⟩],
        products := db.products.map fun p =>
          if p.id == pid then
            { p with current_stock := p.current_stock - qty, sell_price := selling_price }
          else p }

/-- POST branch of `edit_sale`: `get_or_404`, ownership check, overwrite the
sale's fields, adjust the product's stock by `old_qty - new_qty`.  Neither the
product's `sell_price` nor its `cost_price` is touched. -/
def edit_sale (db : DB) (d sid : ℕ) (qty selling_price : ℚ)
    (dateStr : Option String) (remarks : String) : Except Err DB :=
  match findSale db sid with
  | none => .error .notFound
  | some sale =>
    if sale.dairy_id ≠ d then .error .forbidden
    else
      match parseFormDate dateStr with
      | none => .error .internal
      | some dt =>
        match findProduct db sale.product_id with
        | none => .error .internal
        | some _ =>
          .ok { db with
            sales := editFirstSale sid
              (fun e => { e with qty := qty, selling_price := selling_price,
                                 date := dt, remarks := remarks }) db.sales,
            products := db.products.map fun p =>
              if p.id == sale.product_id then
                { p with current_stock := p.current_stock + sale.qty - qty }
              else p }

/-- Route `delete_sale`: `get_or_404`, ownership check, add the sale's quantity back
to the owning product's stock (`if prod:` — silently skipped when the product
row is gone), delete the sale. -/
def delete_sale (db : DB) (d sid : ℕ) : Except Err DB :=
  match findSale db sid with
  | none => .error .notFound
  | some sale =>
    if sale.dairy_id ≠ d then .error .forbidden
    else
      .ok { db with
        sales := deleteFirstSale sid db.sales,
        products := db.products.map fun p =>
          if p.id == sale.product_id then
            { p with current_stock := p.current_stock + sale.qty }
          else p }

/-- POST branch of `edit_product`: `get_or_404`, ownership check, overwrite the
product's descriptive and price fields (`current_stock` untouched). -/
def edit_product (db : DB) (d pid : ℕ) (name unit : String)
    (cost_price sell_price min_stock : ℚ) : Except Err DB :=
  match findProduct db pid with
  | none => .error .notFound
  | some p =>
    if p.dairy_id ≠ d then .error .forbidden
    else
      .ok { db with products := db.products.map fun q =>
        if q.id == pid then
          { q with name := name, unit := unit, cost_price := cost_price,
                   sell_price := sell_price, min_stock := min_stock }
        else q }

/-- Route `delete_product`: `get_or_404`, ownership check, delete the row. -/
def delete_product (db : DB) (d pid : ℕ) : Except Err DB :=
  match findProduct db pid with
  | none => .error .notFound
  | some p =>
    if p.dairy_id ≠ d then .error .forbidden
    else .ok { db with products := deleteFirstProduct pid db.products }

/-- The ledger mutations quantified over in the stock invariant: stock-in
create/edit, sale create/edit/delete, each tagged with the acting dairy. -/
inductive Op where
  | siCreate (d newId pid : ℕ) (qty cost : ℚ) (dateStr : Option String) (remarks : String)
  | siEdit (d sid : ℕ) (qty cost : ℚ) (dateStr : Option String) (remarks : String)
  | sCreate (d newId pid : ℕ) (qty price : ℚ) (dateStr : Option String) (remarks : String)
  | sEdit (d sid : ℕ) (qty price : ℚ) (dateStr : Option String) (remarks : String)
  | sDelete (d sid : ℕ)

def runOp (today : SDate) (db : DB) : Op → Except Err DB
  | .siCreate d newId pid qty cost dateStr remarks =>
      stock_in_page db d today newId pid qty cost dateStr remarks
  | .siEdit d sid qty cost dateStr remarks =>
      edit_stock_in db d sid qty cost dateStr remarks
  | .sCreate d newId pid qty price dateStr remarks =>
      sales_page db d today newId pid qty price dateStr remarks
  | .sEdit d sid qty price dateStr remarks =>
      edit_sale db d sid qty price dateStr remarks
  | .sDelete d sid =>
      delete_sale db d sid

/-- A failed request never commits: the store keeps its previous state. -/
def commitResult (db : DB) : Except Err DB → DB
  | .ok db' => db'
  | .error _ => db

def applyOp (today : SDate) (db : DB) (op : Op) : DB :=
  commitResult db (runOp today db op)

def applyOps (today : SDate) (db : DB) (ops : List Op) : DB :=
  ops.foldl (applyOp today) db

/-- Sum of stock-in quantities recorded for product `pid`. -/
def siSum (pid : ℕ) (l : List StockIn) : ℚ :=
  ((l.filter fun e => e.product_id == pid).map StockIn.qty).sum

/-- Sum of sale quantities recorded for product `pid`. -/
def saleSum (pid : ℕ) (l : List Sale) : ℚ :=
  ((l.filter fun e => e.product_id == pid).map Sale.qty).sum

/-- The ledger invariant: every product's persisted `current_stock` equals the
sum of its stock-in quantities minus the sum of its sale quantities. -/
def stockInvariant (db : DB) : Prop :=
  ∀ p ∈ db.products, p.current_stock = siSum p.id db.stock_ins - saleSum p.id db.sales

/- -------------------- Sum bookkeeping lemmas -------------------- -/

theorem siSum_nil (pid : ℕ) : siSum pid [] = 0 := rfl

theorem siSum_cons (pid : ℕ) (e : StockIn) (l : List StockIn) :
    siSum pid (e :: l) = (if e.product_id = pid then e.qty else 0) + siSum pid l := by
  by_cases h : e.product_id = pid <;>
    simp [siSum, List.filter_cons, h]

theorem siSum_append (pid : ℕ) (l₁ l₂ : List StockIn) :
    siSum pid (l₁ ++ l₂) = siSum pid l₁ + siSum pid l₂ := by
  simp [siSum, List.filter_append]

theorem saleSum_nil (pid : ℕ) : saleSum pid [] = 0 := rfl

theorem saleSum_cons (pid : ℕ) (e : Sale) (l : List Sale) :
    saleSum pid (e :: l) = (if e.product_id = pid then e.qty else 0) + saleSum pid l := by
  by_cases h : e.product_id = pid <;>
    simp [saleSum, List.filter_cons, h]

theorem saleSum_append (pid : ℕ) (l₁ l₂ : List Sale) :
    saleSum pid (l₁ ++ l₂) = saleSum pid l₁ + saleSum pid l₂ := by
  simp [saleSum, List.filter_append]

theorem siSum_editFirstSI (sid : ℕ) (f : StockIn → StockIn)
    (hf : ∀ e, (f e).product_id = e.product_id) :
    ∀ (l : List StockIn) (st : StockIn),
      l.find? (fun e => e.id == sid) = some st →
      ∀ pid, siSum pid (editFirstSI sid f l) + (if st.product_id = pid then st.qty else 0)
        = siSum pid l + (if st.product_id = pid then (f st).qty else 0)
  | [], st, h => by simp at h
  | e :: es, st, h => by
    intro pid
    by_cases hid : e.id == sid
    · simp only [List.find?, hid] at h
      injection h with h
      subst h
      simp only [editFirstSI, hid, if_true, siSum_cons, hf e]
      ring
    · have hid' : (e.id == sid) = false := by simpa using hid
      simp only [List.find?, hid'] at h
      simp only [editFirstSI, hid, if_false, Bool.false_eq_true, siSum_cons]
      have ih := siSum_editFirstSI sid f hf es st h pid
      linarith

theorem saleSum_editFirstSale (sid : ℕ) (f : Sale → Sale)
    (hf : ∀ e, (f e).product_id = e.product_id) :
    ∀ (l : List Sale) (st : Sale),
      l.find? (fun e => e.id == sid) = some st →
      ∀ pid, saleSum pid (editFirstSale sid f l) + (if st.product_id = pid then st.qty else 0)
        = saleSum pid l + (if st.product_id = pid then (f st).qty else 0)
  | [], st, h => by simp at h
  | e :: es, st, h => by
    intro pid
    by_cases hid : e.id == sid
    · simp only [List.find?, hid] at h
      injection h with h
      subst h
      simp only [editFirstSale, hid, if_true, saleSum_cons, hf e]
      ring
    · have hid' : (e.id == sid) = false := by simpa using hid
      simp only [List.find?, hid'] at h
      simp only [editFirstSale, hid, if_false, Bool.false_eq_true, saleSum_cons]
      have ih := saleSum_editFirstSale sid f hf es st h pid
      linarith

theorem saleSum_deleteFirstSale (sid : ℕ) :
    ∀ (l : List Sale) (st : Sale),
      l.find? (fun e => e.id == sid) = some st →
      ∀ pid, saleSum pid (deleteFirstSale sid l) + (if st.product_id = pid then st.qty else 0)
        = saleSum pid l
  | [], st, h => by simp at h
  | e :: es, st, h => by
    intro pid
    by_cases hid : e.id == sid
    · simp only [List.find?, hid] at h
      injection h with h
      subst h
      simp only [deleteFirstSale, hid, if_true, saleSum_cons]
      ring
    · have hid' : (e.id == sid) = false := by simpa using hid
      simp only [List.find?, hid'] at h
      simp only [deleteFirstSale, hid, if_false, Bool.false_eq_true, saleSum_cons]
      have ih := saleSum_deleteFirstSale sid es st h pid
      linarith

/- -------------------- Invariant preservation, operation by operation ------- -/

theorem stockInvariant_stock_in_page {db db' : DB} {d newId pid : ℕ} {today : SDate}
    {qty cost : ℚ} {dateStr : Option String} {remarks : String}
    (h : stock_in_page db d today newId pid qty cost dateStr remarks = .ok db')
    (hinv : stockInvariant db) : stockInvariant db' := by
  unfold stock_in_page at h
  cases hdt : parseOrToday? dateStr today with
  | none => rw [hdt] at h; exact absurd h (by simp)
  | some dt =>
    rw [hdt] at h
    cases hfp : findProduct db pid with
    | none => rw [hfp] at h; exact absurd h (by simp)
    | some prod =>
      rw [hfp] at h
      injection h with h
      subst h
      intro p' hp'
      simp only [List.mem_map] at hp'
      obtain ⟨p, hp, rfl⟩ := hp'
      have hbase := hinv p hp
      by_cases hid : p.id = pid
      · simp only [hid, beq_self_eq_true, if_true, siSum_append, saleSum]
        simp only [siSum_cons, siSum_nil, hid]
        simp only [saleSum] at hbase
        simp [hbase, hid]
        ring
      · simp only [beq_iff_eq, hid, if_false, siSum_append]
        simp only [siSum_cons, siSum_nil]
        have : (⟨newId, d, pid, qty, cost, dt, remarks⟩ : StockIn).product_id = p.id ↔ False := by
          simpa using fun he => hid he.symm
        simp only [this, if_false]
        simpa using hbase

theorem stockInvariant_sales_page {db db' : DB} {d newId pid : ℕ} {today : SDate}
    {qty price : ℚ} {dateStr : Option String} {remarks : String}
    (h : sales_page db d today newId pid qty price dateStr remarks = .ok db')
    (hinv : stockInvariant db) : stockInvariant db' := by
  unfold sales_page at h
  cases hdt : parseOrToday? dateStr today with
  | none => rw [hdt] at h; exact absurd h (by simp)
  | some dt =>
    rw [hdt] at h
    cases hfp : findProduct db pid with
    | none => rw [hfp] at h; exact absurd h (by simp)
    | some prod =>
      rw [hfp] at h
      injection h with h
      subst h
      intro p' hp'
      simp only [List.mem_map] at hp'
      obtain ⟨p, hp, rfl⟩ := hp'
      have hbase := hinv p hp
      by_cases hid : p.id = pid
      · simp only [hid, beq_self_eq_true, if_true, saleSum_append]
        simp only [saleSum_cons, saleSum_nil, hid]
        simp [hbase, hid]
        ring
      · simp only [beq_iff_eq, hid, if_false, saleSum_append]
        simp only [saleSum_cons, saleSum_nil]
        have : (⟨newId, d, pid, qty, price, dt, remarks⟩ : Sale).product_id = p.id ↔ False := by
          simpa using fun he => hid he.symm
        simp only [this, if_false]
        simpa using hbase

theorem stockInvariant_edit_stock_in {db db' : DB} {d sid : ℕ}
    {qty cost : ℚ} {dateStr : Option String} {remarks : String}
    (h : edit_stock_in db d sid qty cost dateStr remarks = .ok db')
    (hinv : stockInvariant db) : stockInvariant db' := by
  unfold edit_stock_in at h
  cases hfind : findStockIn db sid with
  | none => rw [hfind] at h; exact absurd h (by simp)
  | some st =>
    rw [hfind] at h
    dsimp only at h
    by_cases hown : st.dairy_id ≠ d
    · rw [if_pos hown] at h; exact absurd h (by simp)
    · rw [if_neg hown] at h
      cases hdt : parseFormDate dateStr with
      | none => rw [hdt] at h; exact absurd h (by simp)
      | some dt =>
        rw [hdt] at h
        cases hfp : findProduct db st.product_id with
        | none => rw [hfp] at h; exact absurd h (by simp)
        | some prod =>
          rw [hfp] at h
          injection h with h
          subst h
          intro p' hp'
          simp only [List.mem_map] at hp'
          obtain ⟨p, hp, rfl⟩ := hp'
          have hbase := hinv p hp
          have hsum := siSum_editFirstSI sid
            (fun e => { e with qty := qty, cost_price := cost, date := dt, remarks := remarks })
            (fun e => rfl) db.stock_ins st hfind p.id
          by_cases hid : p.id = st.product_id
          · have hc : (p.id == st.product_id) = true := by simpa using hid
            rw [if_pos hid.symm, if_pos hid.symm] at hsum
            dsimp only at hsum
            rw [if_pos hc]
            dsimp only
            linarith [hbase, hsum]
          · have hc : ¬ ((p.id == st.product_id) = true) := by simpa using hid
            rw [if_neg (fun he => hid he.symm), if_neg (fun he => hid he.symm)] at hsum
            rw [if_neg hc]
            linarith [hbase, hsum]

theorem stockInvariant_edit_sale {db db' : DB} {d sid : ℕ}
    {qty price : ℚ} {dateStr : Option String} {remarks : String}
    (h : edit_sale db d sid qty price dateStr remarks = .ok db')
    (hinv : stockInvariant db) : stockInvariant db' := by
  unfold edit_sale at h
  cases hfind : findSale db sid with
  | none => rw [hfind] at h; exact absurd h (by simp)
  | some sale =>
    rw [hfind] at h
    dsimp only at h
    by_cases hown : sale.dairy_id ≠ d
    · rw [if_pos hown] at h; exact absurd h (by simp)
    · rw [if_neg hown] at h
      cases hdt : parseFormDate dateStr with
      | none => rw [hdt] at h; exact absurd h (by simp)
      | some dt =>
        rw [hdt] at h
        cases hfp : findProduct db sale.product_id with
        | none => rw [hfp] at h; exact absurd h (by simp)
        | some prod =>
          rw [hfp] at h
          injection h with h
          subst h
          intro p' hp'
          simp only [List.mem_map] at hp'
          obtain ⟨p, hp, rfl⟩ := hp'
          have hbase := hinv p hp
          have hsum := saleSum_editFirstSale sid
            (fun e => { e with qty := qty, selling_price := price, date := dt, remarks := remarks })
            (fun e => rfl) db.sales sale hfind p.id
          by_cases hid : p.id = sale.product_id
          · have hc : (p.id == sale.product_id) = true := by simpa using hid
            rw [if_pos hid.symm, if_pos hid.symm] at hsum
            dsimp only at hsum
            rw [if_pos hc]
            dsimp only
            linarith [hbase, hsum]
          · have hc : ¬ ((p.id == sale.product_id) = true) := by simpa using hid
            rw [if_neg (fun he => hid he.symm), if_neg (fun he => hid he.symm)] at hsum
            rw [if_neg hc]
            linarith [hbase, hsum]

theorem stockInvariant_delete_sale {db db' : DB} {d sid : ℕ}
    (h : delete_sale db d sid = .ok db')
    (hinv : stockInvariant db) : stockInvariant db' := by
  unfold delete_sale at h
  cases hfind : findSale db sid with
  | none => rw [hfind] at h; exact absurd h (by simp)
  | some sale =>
    rw [hfind] at h
    dsimp only at h
    by_cases hown : sale.dairy_id ≠ d
    · rw [if_pos hown] at h; exact absurd h (by simp)
    · rw [if_neg hown] at h
      injection h with h
      subst h
      intro p' hp'
      simp only [List.mem_map] at hp'
      obtain ⟨p, hp, rfl⟩ := hp'
      have hbase := hinv p hp
      have hsum := saleSum_deleteFirstSale sid db.sales sale hfind p.id
      by_cases hid : p.id = sale.product_id
      · have hc : (p.id == sale.product_id) = true := by simpa using hid
        rw [if_pos hid.symm] at hsum
        rw [if_pos hc]
        dsimp only
        linarith [hbase, hsum]
      · have hc : ¬ ((p.id == sale.product_id) = true) := by simpa using hid
        rw [if_neg (fun he => hid he.symm)] at hsum
        rw [if_neg hc]
        linarith [hbase, hsum]

theorem stockInvariant_applyOp (today : SDate) (db : DB) (op : Op)
    (hinv : stockInvariant db) : stockInvariant (applyOp today db op) := by
  unfold applyOp commitResult
  cases hrun : runOp today db op with
  | error e => exact hinv
  | ok db' =>
    cases op with
    | siCreate d newId pid qty cost dateStr remarks =>
        exact stockInvariant_stock_in_page hrun hinv
    | siEdit d sid qty cost dateStr remarks =>
        exact stockInvariant_edit_stock_in hrun hinv
    | sCreate d newId pid qty price dateStr remarks =>
        exact stockInvariant_sales_page hrun hinv
    | sEdit d sid qty price dateStr remarks =>
        exact stockInvariant_edit_sale hrun hinv
    | sDelete d sid =>
        exact stockInvariant_delete_sale hrun hinv

/-- C1: for every product and every sequence of operations among stock-in
create, stock-in edit, sale create, sale edit and sale delete, the product's
`current_stock` after the sequence equals the sum of the quantities of all
non-deleted stock-in events for it minus the sum of the quantities of all
non-deleted sale events for it: replaying any operation list from a state
satisfying `stockInvariant` (e.g. a freshly created product with no events and
stock 0) ends in a state satisfying it. -/
theorem current_stock_invariant (today : SDate) (db : DB) (ops : List Op)
    (hinv : stockInvariant db) : stockInvariant (applyOps today db ops) := by
  induction ops generalizing db with
  | nil => exact hinv
  | cons op ops ih => exact ih (applyOp today db op) (stockInvariant_applyOp today db op hinv)

/-- Sample tenant store: one dairy, one product with no events and stock 0. -/
def dbW : DB :=
  { dairies := [⟨1, "A", none⟩],
    products := [⟨1, 1, "Milk", "litre", 40, 50, 0, 0⟩],
    stock_ins := [], sales := [] }

theorem current_stock_invariant_witness :
    stockInvariant (applyOps ⟨2024, 1, 1⟩ dbW
      [Op.siCreate 1 1 1 100 40 none "", Op.sCreate 1 1 1 30 55 none "",
       Op.sEdit 1 1 20 55 none "", Op.sDelete 1 1]) :=
  current_stock_invariant ⟨2024, 1, 1⟩ dbW _ (by
    intro p hp
    simp only [dbW, List.mem_singleton] at hp
    subst hp
    simp [dbW, siSum, saleSum])

/-- Sample tenant store with one stock-in event and one sale event
(`current_stock = 100 - 30 = 70`). -/
def dbX : DB :=
  { dairies := [⟨1, "A", none⟩],
    products := [⟨1, 1, "Milk", "litre", 40, 50, 0, 70⟩],
    stock_ins := [⟨1, 1, 1, 100, 40, ⟨2024, 1, 1⟩, ""⟩],
    sales := [⟨1, 1, 1, 30, 55, ⟨2024, 1, 2⟩, ""⟩] }

/-- C2: editing a stock-in event's quantity from `q1` to `q2` changes the owning
product's `current_stock` by exactly `q2 - q1`, leaving the product's other
fields — in particular its `cost_price` reference — unchanged; editing a sale's
quantity from `q1` to `q2` changes it by exactly `q1 - q2`. -/
theorem edit_stock_delta :
    (∀ (db db' : DB) (d sid : ℕ) (q2 c : ℚ) (ds : Option String) (rm : String) (st : StockIn),
       findStockIn db sid = some st →
       edit_stock_in db d sid q2 c ds rm = .ok db' →
       db'.products = db.products.map fun p =>
         if p.id = st.product_id
         then { p with current_stock := p.current_stock + (q2 - st.qty) } else p) ∧
    (∀ (db db' : DB) (d sid : ℕ) (q2 pr : ℚ) (ds : Option String) (rm : String) (sl : Sale),
       findSale db sid = some sl →
       edit_sale db d sid q2 pr ds rm = .ok db' →
       db'.products = db.products.map fun p =>
         if p.id = sl.product_id
         then { p with current_stock := p.current_stock + (sl.qty - q2) } else p) := by
  constructor
  · intro db db' d sid q2 c ds rm st hfind h
    unfold edit_stock_in at h
    rw [hfind] at h
    dsimp only at h
    by_cases hown : st.dairy_id ≠ d
    · rw [if_pos hown] at h; exact absurd h (by simp)
    · rw [if_neg hown] at h
      cases hdt : parseFormDate ds with
      | none => rw [hdt] at h; exact absurd h (by simp)
      | some dt =>
        rw [hdt] at h
        cases hfp : findProduct db st.product_id with
        | none => rw [hfp] at h; exact absurd h (by simp)
        | some prod =>
          rw [hfp] at h
          injection h with h
          subst h
          dsimp only
          apply List.map_congr_left
          intro p hp
          by_cases hid : p.id = st.product_id
          · have hc : (p.id == st.product_id) = true := by simpa using hid
            rw [if_pos hc, if_pos hid]
            have : p.current_stock - st.qty + q2 = p.current_stock + (q2 - st.qty) := by ring
            rw [this]
          · have hc : ¬ ((p.id == st.product_id) = true) := by simpa using hid
            rw [if_neg hc, if_neg hid]
  · intro db db' d sid q2 pr ds rm sl hfind h
    unfold edit_sale at h
    rw [hfind] at h
    dsimp only at h
    by_cases hown : sl.dairy_id ≠ d
    · rw [if_pos hown] at h; exact absurd h (by simp)
    · rw [if_neg hown] at h
      cases hdt : parseFormDate ds with
      | none => rw [hdt] at h; exact absurd h (by simp)
      | some dt =>
        rw [hdt] at h
        cases hfp : findProduct db sl.product_id with
        | none => rw [hfp] at h; exact absurd h (by simp)
        | some prod =>
          rw [hfp] at h
          injection h with h
          subst h
          dsimp only
          apply List.map_congr_left
          intro p hp
          by_cases hid : p.id = sl.product_id
          · have hc : (p.id == sl.product_id) = true := by simpa using hid
            rw [if_pos hc, if_pos hid]
            have : p.current_stock + sl.qty - q2 = p.current_stock + (sl.qty - q2) := by ring
            rw [this]
          · have hc : ¬ ((p.id == sl.product_id) = true) := by simpa using hid
            rw [if_neg hc, if_neg hid]

/-- Result of editing `dbX`'s stock-in event to quantity 120 (cost 45). -/
def dbY1 : DB :=
  { dairies := [⟨1, "A", none⟩],
    products := [⟨1, 1, "Milk", "litre", 40, 50, 0, 90⟩],
    stock_ins := [⟨1, 1, 1, 120, 45, ⟨2024, 1, 3⟩, "r"⟩],
    sales := [⟨1, 1, 1, 30, 55, ⟨2024, 1, 2⟩, ""⟩] }

/-- Result of editing `dbX`'s sale event to quantity 20 (price 60). -/
def dbY2 : DB :=
  { dairies := [⟨1, "A", none⟩],
    products := [⟨1, 1, "Milk", "litre", 40, 50, 0, 80⟩],
    stock_ins := [⟨1, 1, 1, 100, 40, ⟨2024, 1, 1⟩, ""⟩],
    sales := [⟨1, 1, 1, 20, 60, ⟨2024, 1, 4⟩, "s"⟩] }

theorem edit_stock_delta_witness :
    (dbY1.products = dbX.products.map fun p =>
       if p.id = 1 then { p with current_stock := p.current_stock + (120 - 100) } else p) ∧
    (dbY2.products = dbX.products.map fun p =>
       if p.id = 1 then { p with current_stock := p.current_stock + (30 - 20) } else p) :=
  ⟨edit_stock_delta.1 dbX dbY1 1 1 120 45 (some "2024-01-03") "r"
      ⟨1, 1, 1, 100, 40, ⟨2024, 1, 1⟩, ""⟩ (by rfl)
      (by
        have hd : parseFormDate (some "2024-01-03") = some ⟨2024, 1, 3⟩ := by decide
        simp [edit_stock_in, findStockIn, findProduct, dbX, dbY1, hd, editFirstSI]
        norm_num),
   edit_stock_delta.2 dbX dbY2 1 1 20 60 (some "2024-01-04") "s"
      ⟨1, 1, 1, 30, 55, ⟨2024, 1, 2⟩, ""⟩ (by rfl)
      (by
        have hd : parseFormDate (some "2024-01-04") = some ⟨2024, 1, 4⟩ := by decide
        simp [edit_sale, findSale, findProduct, dbX, dbY2, hd, editFirstSale]
        norm_num)⟩

/-- C5: every edit or delete of a product, stock-in event or sale event whose
record belongs to a different tenant than the acting one fails with the
authorization error (HTTP 403) and leaves the store unchanged. -/
theorem cross_tenant_mutation_forbidden :
    (∀ (db : DB) (d pid : ℕ) (nm un : String) (c s m : ℚ) (p : Product),
       findProduct db pid = some p → p.dairy_id ≠ d →
       edit_product db d pid nm un c s m = .error .forbidden ∧
       commitResult db (edit_product db d pid nm un c s m) = db) ∧
    (∀ (db : DB) (d pid : ℕ) (p : Product),
       findProduct db pid = some p → p.dairy_id ≠ d →
       delete_product db d pid = .error .forbidden ∧
       commitResult db (delete_product db d pid) = db) ∧
    (∀ (db : DB) (d sid : ℕ) (q c : ℚ) (ds : Option String) (rm : String) (st : StockIn),
       findStockIn db sid = some st → st.dairy_id ≠ d →
       edit_stock_in db d sid q c ds rm = .error .forbidden ∧
       commitResult db (edit_stock_in db d sid q c ds rm) = db) ∧
    (∀ (db : DB) (d sid : ℕ) (q pr : ℚ) (ds : Option String) (rm : String) (sl : Sale),
       findSale db sid = some sl → sl.dairy_id ≠ d →
       edit_sale db d sid q pr ds rm = .error .forbidden ∧
       commitResult db (edit_sale db d sid q pr ds rm) = db) ∧
    (∀ (db : DB) (d sid : ℕ) (sl : Sale),
       findSale db sid = some sl → sl.dairy_id ≠ d →
       delete_sale db d sid = .error .forbidden ∧
       commitResult db (delete_sale db d sid) = db) := by
  refine ⟨?_, ?_, ?_, ?_, ?_⟩
  · intro db d pid nm un c s m p hfind hown
    have h : edit_product db d pid nm un c s m = .error .forbidden := by
      unfold edit_product
      rw [hfind]
      dsimp only
      rw [if_pos hown]
    exact ⟨h, by rw [h]; rfl⟩
  · intro db d pid p hfind hown
    have h : delete_product db d pid = .error .forbidden := by
      unfold delete_product
      rw [hfind]
      dsimp only
      rw [if_pos hown]
    exact ⟨h, by rw [h]; rfl⟩
  · intro db d sid q c ds rm st hfind hown
    have h : edit_stock_in db d sid q c ds rm = .error .forbidden := by
      unfold edit_stock_in
      rw [hfind]
      dsimp only
      rw [if_pos hown]
    exact ⟨h, by rw [h]; rfl⟩
  · intro db d sid q pr ds rm sl hfind hown
    have h : edit_sale db d sid q pr ds rm = .error .forbidden := by
      unfold edit_sale
      rw [hfind]
      dsimp only
      rw [if_pos hown]
    exact ⟨h, by rw [h]; rfl⟩
  · intro db d sid sl hfind hown
    have h : delete_sale db d sid = .error .forbidden := by
      unfold delete_sale
      rw [hfind]
      dsimp only
      rw [if_pos hown]
    exact ⟨h, by rw [h]; rfl⟩

/-- Two-tenant store: dairy 2 acts on records owned by dairy 1. -/
def dbZ : DB :=
  { dairies := [⟨1, "A", none⟩, ⟨2, "B", none⟩],
    products := [⟨1, 1, "Milk", "litre", 40, 50, 0, 70⟩],
    stock_ins := [⟨1, 1, 1, 100, 40, ⟨2024, 1, 1⟩, ""⟩],
    sales := [⟨1, 1, 1, 30, 55, ⟨2024, 1, 2⟩, ""⟩] }

theorem cross_tenant_mutation_forbidden_witness :
    (edit_product dbZ 2 1 "x" "l" 1 2 0 = .error .forbidden ∧
       commitResult dbZ (edit_product dbZ 2 1 "x" "l" 1 2 0) = dbZ) ∧
    (delete_product dbZ 2 1 = .error .forbidden ∧
       commitResult dbZ (delete_product dbZ 2 1) = dbZ) ∧
    (edit_stock_in dbZ 2 1 5 5 none "" = .error .forbidden ∧
       commitResult dbZ (edit_stock_in dbZ 2 1 5 5 none "") = dbZ) ∧
    (edit_sale dbZ 2 1 5 5 none "" = .error .forbidden ∧
       commitResult dbZ (edit_sale dbZ 2 1 5 5 none "") = dbZ) ∧
    (delete_sale dbZ 2 1 = .error .forbidden ∧
       commitResult dbZ (delete_sale dbZ 2 1) = dbZ) :=
  ⟨cross_tenant_mutation_forbidden.1 dbZ 2 1 "x" "l" 1 2 0
      ⟨1, 1, "Milk", "litre", 40, 50, 0, 70⟩ (by rfl) (by decide),
   cross_tenant_mutation_forbidden.2.1 dbZ 2 1
      ⟨1, 1, "Milk", "litre", 40, 50, 0, 70⟩ (by rfl) (by decide),
   cross_tenant_mutation_forbidden.2.2.1 dbZ 2 1 5 5 none ""
      ⟨1, 1, 1, 100, 40, ⟨2024, 1, 1⟩, ""⟩ (by rfl) (by decide),
   cross_tenant_mutation_forbidden.2.2.2.1 dbZ 2 1 5 5 none ""
      ⟨1, 1, 1, 30, 55, ⟨2024, 1, 2⟩, ""⟩ (by rfl) (by decide),
   cross_tenant_mutation_forbidden.2.2.2.2 dbZ 2 1
      ⟨1, 1, 1, 30, 55, ⟨2024, 1, 2⟩, ""⟩ (by rfl) (by decide)⟩

/-- C7 counterexample: a stock-in create and a sale create with quantity `-5`
are not rejected — the event is persisted (and the balance adjusted), so no
`qty ≥ 0` validation happens before persisting. -/
theorem negative_qty_accepted :
    ((stock_in_page dbW 1 ⟨2024, 1, 1⟩ 1 1 (-5) 3 none "").toOption.map
        (fun db' => db'.stock_ins.map StockIn.qty) = some [-5]) ∧
    ((sales_page dbW 1 ⟨2024, 1, 1⟩ 1 1 (-5) 3 none "").toOption.map
        (fun db' => db'.sales.map Sale.qty) = some [-5]) := by
  constructor
  · simp [stock_in_page, parseOrToday?, pyStrVal, findProduct, dbW, Except.toOption]
  · simp [sales_page, parseOrToday?, pyStrVal, findProduct, dbW, Except.toOption]

/-- C7 amended: the create routes perform no validation of the quantity at all:
any quantity, negative included, is accepted whenever the product exists; the
event is persisted and the owning product's `current_stock` adjusted by the
signed quantity (`+qty` for stock-in, `-qty` for sale). -/
theorem create_no_qty_validation :
    (∀ (db : DB) (d : ℕ) (today : SDate) (newId pid : ℕ) (qty cost : ℚ) (rm : String)
       (prod : Product), findProduct db pid = some prod →
       stock_in_page db d today newId pid qty cost none rm = .ok { db with
         stock_ins := db.stock_ins ++ [⟨newId, d, pid, qty, cost, today, rm⟩],
         products := db.products.map fun p =>
           if p.id == pid then
             { p with current_stock := p.current_stock + qty, cost_price := cost }
           else p }) ∧
    (∀ (db : DB) (d : ℕ) (today : SDate) (newId pid : ℕ) (qty price : ℚ) (rm : String)
       (prod : Product), findProduct db pid = some prod →
       sales_page db d today newId pid qty price none rm = .ok { db with
         sales := db.sales ++ [⟨newId, d, pid, qty, price, today, rm⟩],
         products := db.products.map fun p =>
           if p.id == pid then
             { p with current_stock := p.current_stock - qty, sell_price := price }
           else p }) := by
  constructor
  · intro db d today newId pid qty cost rm prod hfind
    unfold stock_in_page parseOrToday? pyStrVal
    rw [hfind]
  · intro db d today newId pid qty price rm prod hfind
    unfold sales_page parseOrToday? pyStrVal
    rw [hfind]

theorem create_no_qty_validation_witness :
    (stock_in_page dbW 1 ⟨2024, 1, 1⟩ 1 1 (-7) 3 none "" = .ok { dbW with
       stock_ins := [⟨1, 1, 1, -7, 3, ⟨2024, 1, 1⟩, ""⟩],
       products := dbW.products.map fun p =>
         if p.id == 1 then
           { p with current_stock := p.current_stock + (-7), cost_price := 3 }
         else p }) ∧
    (sales_page dbW 1 ⟨2024, 1, 1⟩ 1 1 (-7) 3 none "" = .ok { dbW with
       sales := [⟨1, 1, 1, -7, 3, ⟨2024, 1, 1⟩, ""⟩],
       products := dbW.products.map fun p =>
         if p.id == 1 then
           { p with current_stock := p.current_stock - (-7), sell_price := 3 }
         else p }) :=
  ⟨create_no_qty_validation.1 dbW 1 ⟨2024, 1, 1⟩ 1 1 (-7) 3 ""
      ⟨1, 1, "Milk", "litre", 40, 50, 0, 0⟩ (by rfl),
   create_no_qty_validation.2 dbW 1 ⟨2024, 1, 1⟩ 1 1 (-7) 3 ""
      ⟨1, 1, "Milk", "litre", 40, 50, 0, 0⟩ (by rfl)⟩

/-- C10: editing a sale leaves every product's `sell_price` unchanged, even
when the edit changes the sale's selling price; only sale creation overwrites
the owning product's `sell_price` with the sale's price (last-price policy). -/
theorem edit_sale_preserves_sell_price :
    (∀ (db db' : DB) (d sid : ℕ) (q pr : ℚ) (ds : Option String) (rm : String),
       edit_sale db d sid q pr ds rm = .ok db' →
       db'.products.map Product.sell_price = db.products.map Product.sell_price) ∧
    (∀ (db db' : DB) (d : ℕ) (today : SDate) (newId pid : ℕ) (q pr : ℚ)
       (ds : Option String) (rm : String),
       sales_page db d today newId pid q pr ds rm = .ok db' →
       db'.products.map Product.sell_price =
         db.products.map fun p => if p.id = pid then pr else p.sell_price) := by
  constructor
  · intro db db' d sid q pr ds rm h
    unfold edit_sale at h
    cases hfind : findSale db sid with
    | none => rw [hfind] at h; exact absurd h (by simp)
    | some sl =>
      rw [hfind] at h
      dsimp only at h
      by_cases hown : sl.dairy_id ≠ d
      · rw [if_pos hown] at h; exact absurd h (by simp)
      · rw [if_neg hown] at h
        cases hdt : parseFormDate ds with
        | none => rw [hdt] at h; exact absurd h (by simp)
        | some dt =>
          rw [hdt] at h
          cases hfp : findProduct db sl.product_id with
          | none => rw [hfp] at h; exact absurd h (by simp)
          | some prod =>
            rw [hfp] at h
            injection h with h
            subst h
            dsimp only
            rw [List.map_map]
            apply List.map_congr_left
            intro p hp
            by_cases hid : (p.id == sl.product_id) = true
            · rw [Function.comp_apply, if_pos hid]
            · rw [Function.comp_apply, if_neg hid]
  · intro db db' d today newId pid q pr ds rm h
    unfold sales_page at h
    cases hdt : parseOrToday? ds today with
    | none => rw [hdt] at h; exact absurd h (by simp)
    | some dt =>
      rw [hdt] at h
      cases hfp : findProduct db pid with
      | none => rw [hfp] at h; exact absurd h (by simp)
      | some prod =>
        rw [hfp] at h
        injection h with h
        subst h
        dsimp only
        rw [List.map_map]
        apply List.map_congr_left
        intro p hp
        by_cases hid : p.id = pid
        · have hc : (p.id == pid) = true := by simpa using hid
          rw [Function.comp_apply, if_pos hc, if_pos hid]
        · have hc : ¬ ((p.id == pid) = true) := by simpa using hid
          rw [Function.comp_apply, if_neg hc, if_neg hid]

theorem edit_sale_preserves_sell_price_witness :
    (dbY2.products.map Product.sell_price = dbX.products.map Product.sell_price) ∧
    ((commitResult dbW (sales_page dbW 1 ⟨2024, 1, 1⟩ 1 1 4 66 none "")).products.map
        Product.sell_price =
      dbW.products.map fun p => if p.id = 1 then 66 else p.sell_price) :=
  ⟨edit_sale_preserves_sell_price.1 dbX dbY2 1 1 20 60 (some "2024-01-04") "s"
      (by
        have hd : parseFormDate (some "2024-01-04") = some ⟨2024, 1, 4⟩ := by decide
        simp [edit_sale, findSale, findProduct, dbX, dbY2, hd, editFirstSale]
        norm_num),
   edit_sale_preserves_sell_price.2 dbW
      (commitResult dbW (sales_page dbW 1 ⟨2024, 1, 1⟩ 1 1 4 66 none "")) 1 ⟨2024, 1, 1⟩ 1 1 4 66
      none ""
      (by simp [sales_page, parseOrToday?, pyStrVal, findProduct, dbW, commitResult])⟩

/- -------------------- Report aggregation -------------------- -/

/-- One row of the unified report (stock-in rows carry `sell_price = none`,
rendered as the empty cell). -/
structure ReportRow where
  dairy : String
  logo : Option String
  date : SDate
  product : String
  in_qty : ℚ
  out_qty : ℚ
  cost_price : ℚ
  sell_price : Option ℚ
  profit : ℚ
  remarks : String
deriving DecidableEq

/-- Report totals, accumulated in the same pass that builds the rows. -/
structure Totals where
  in_qty : ℚ
  out_qty : ℚ
  cost_val : ℚ
  sell_val : ℚ
  profit : ℚ
deriving DecidableEq

def Totals.init : Totals := ⟨0, 0, 0, 0, 0⟩

/-- Loop body for a stock-in entry (`for entry in sis:`): append the row and
bump `in_qty` and `cost_val`; the `entry.dairy` / `entry.product` relationship
accesses raise when the referenced record is missing. -/
def siStep (db : DB) (acc : List ReportRow × Totals) (entry : StockIn) :
    Option (List ReportRow × Totals) := do
  let dy ← findDairy db entry.dairy_id
  let p ← findProduct db entry.product_id
  pure (acc.1 ++ [{ dairy := dy.name, logo := dy.logo_path, date := entry.date,
                    product := p.name, in_qty := entry.qty, out_qty := 0,
                    cost_price := entry.cost_price, sell_price := none, profit := 0,
                    remarks := entry.remarks }],
        { acc.2 with in_qty := acc.2.in_qty + entry.qty,
                     cost_val := acc.2.cost_val + entry.qty * entry.cost_price })

/-- Loop body for a sale (`for s in ss:`): the row profit uses the product's
CURRENT `cost_price`, not the cost at sale time; bump `out_qty`, `sell_val`
and `profit`. -/
def saleStep (db : DB) (acc : List ReportRow × Totals) (s : Sale) :
    Option (List ReportRow × Totals) := do
  let dy ← findDairy db s.dairy_id
  let p ← findProduct db s.product_id
  let profit := s.qty * (s.selling_price - p.cost_price)
  pure (acc.1 ++ [{ dairy := dy.name, logo := dy.logo_path, date := s.date,
                    product := p.name, in_qty := 0, out_qty := s.qty,
                    cost_price := p.cost_price, sell_price := some s.selling_price,
                    profit := profit, remarks := s.remarks }],
        { acc.2 with out_qty := acc.2.out_qty + s.qty,
                     sell_val := acc.2.sell_val + s.qty * s.selling_price,
                     profit := acc.2.profit + profit })

/-- Stable descending insertion by date: a later element is placed after every
existing element whose date is not strictly smaller.  Python's `sorted` with
`key=date, reverse=True` is specified as a stable sort with exactly this
extensional behaviour. -/
def insDesc {α : Type} (dkey : α → SDate) (r : α) : List α → List α
  | [] => [r]
  | x :: xs => if SDate.ltb (dkey x) (dkey r) then r :: x :: xs else x :: insDesc dkey r xs

/-- Stable sort, date descending (`sorted(rows, key=lambda x: x['date'],
reverse=True)` and the `order_by(date.desc())` queries). -/
def sortByDateDesc {α : Type} (dkey : α → SDate) (l : List α) : List α :=
  l.foldl (fun acc r => insDesc dkey r acc) []

/-- Rows and totals of the report listing (`app.py` lines 438-472): one pass
over the filtered stock-ins, one pass over the filtered sales, then the stable
date-descending sort of the combined rows. -/
def reportsCore (db : DB) (sis : List StockIn) (ss : List Sale) :
    Option (List ReportRow × Totals) := do
  let acc1 ← sis.foldlM (siStep db) ([], Totals.init)
  let acc2 ← ss.foldlM (saleStep db) acc1
  pure (sortByDateDesc ReportRow.date acc2.1, acc2.2)

/-- Filter chain applied to `StockIn.query` (tenant, date bounds, product);
an absent filter keeps every row. -/
def filterSIs (db : DB) (did pid : Option ℕ) (f1d f2d : Option SDate) : List StockIn :=
  db.stock_ins.filter fun e =>
    (match did with | some i => e.dairy_id == i | none => true) &&
    (match f1d with | some a => SDate.leb a e.date | none => true) &&
    (match f2d with | some b => SDate.leb e.date b | none => true) &&
    (match pid with | some i => e.product_id == i | none => true)

/-- Filter chain applied to `Sale.query`. -/
def filterSales (db : DB) (did pid : Option ℕ) (f1d f2d : Option SDate) : List Sale :=
  db.sales.filter fun e =>
    (match did with | some i => e.dairy_id == i | none => true) &&
    (match f1d with | some a => SDate.leb a e.date | none => true) &&
    (match f2d with | some b => SDate.leb e.date b | none => true) &&
    (match pid with | some i => e.product_id == i | none => true)

/-- Session state as the routes see it: `current_user.is_authenticated` and
`session.get('dairy_id')`. -/
structure Sess where
  adminAuth : Bool
  dairyId : Option ℕ
deriving DecidableEq

/-- Caller-supplied report request values (form/args merged, as each is read
with the same `or` chain) and the page number. -/
structure ReportReq where
  fromP : Option String
  toP : Option String
  productP : Option String
  dairyP : Option String
  page : ℤ
deriving DecidableEq

/-- Helper `current_dairy()`: the session tenant, when it exists in the store. -/
def currentDairy (db : DB) (sess : Sess) : Option Dairy :=
  match sess.dairyId with
  | none => none
  | some did => findDairy db did

/-- Resolution of `did = request('dairy') or (d['id'] if d else None)` followed
by the guard `if did and str(did).isdigit()`: the request parameter, when
present and non-empty, takes precedence over the session tenant; a non-numeric
value leaves the query unfiltered.  `current_user.is_authenticated` is never
consulted. -/
def reportDairyFilter (db : DB) (req : ReportReq) (sess : Sess) : Option ℕ :=
  match pyStrVal req.dairyP with
  | some s => strToNat? s
  | none => (currentDairy db sess).map Dairy.id

/-- Resolution of `pid = request('product')` with the `isdigit` guard. -/
def reportProductFilter (req : ReportReq) : Option ℕ :=
  match pyStrVal req.productP with
  | some s => strToNat? s
  | none => none

/-- Date resolution of the listing report: each bound defaults to today's
string; both parses sit in one `try` whose handler resets both bounds to
`None`, i.e. no date filtering at all. -/
def reportDates (req : ReportReq) (today : SDate) : Option SDate × Option SDate :=
  match parseOrToday? req.fromP today, parseOrToday? req.toP today with
  | some a, some b => (some a, some b)
  | _, _ => (none, none)

/-- Normalization of a Python slice bound: a negative index counts from the
end, and the result is clamped into `[0, n]`. -/
def pyIndex (n : ℕ) (i : ℤ) : ℕ :=
  if i < 0 then ((n : ℤ) + i).toNat else min i.toNat n

/-- Python slice `l[s:e]`. -/
def pySlice {α : Type} (l : List α) (s e : ℤ) : List α :=
  (l.take (pyIndex l.length e)).drop (pyIndex l.length s)

/-- Report pagination: `start = (page - 1) * per_page`,
`paginated_rows = rows[start:start + per_page]` with `per_page = 10`. -/
def paginate {α : Type} (rows : List α) (page : ℤ) : List α :=
  pySlice rows ((page - 1) * 10) ((page - 1) * 10 + 10)

/-- Page count `ceil(len(rows) / per_page) if rows else 1`. -/
def total_pages {α : Type} (rows : List α) : ℕ :=
  if rows.isEmpty then 1 else (rows.length + 10 - 1) / 10

/-- Everything the `reports` route hands to the template. -/
structure ReportResult where
  rows : List ReportRow
  pageRows : List ReportRow
  totals : Totals
  totalPages : ℕ
deriving DecidableEq

/-- Body of the report listing once the filters are resolved: query both event
streams, build rows and totals, sort and paginate. -/
def reportsFor (db : DB) (did pid : Option ℕ) (f1d f2d : Option SDate) (page : ℤ) :
    Option ReportResult := do
  let rt ← reportsCore db (filterSIs db did pid f1d f2d) (filterSales db did pid f1d f2d)
  pure { rows := rt.1, pageRows := paginate rt.1 page, totals := rt.2,
         totalPages := total_pages rt.1 }

/-- The `reports` listing route (lines 399-507): resolve tenant, product and
date filters, then aggregate.  The Excel export writes the full pre-slice row
set as a side effect and is outside the store model. -/
def reports (db : DB) (req : ReportReq) (sess : Sess) (today : SDate) :
    Option ReportResult :=
  reportsFor db (reportDairyFilter db req sess) (reportProductFilter req)
    (reportDates req today).1 (reportDates req today).2 req.page

/-- Rows and totals of the PDF report route (lines 510-582): the same
construction, on streams pre-sorted date-descending by the query. -/
def reportsPdfCore (db : DB) (did pid : Option ℕ) (f1d f2d : Option SDate) :
    Option (List ReportRow × Totals) :=
  reportsCore db (sortByDateDesc StockIn.date (filterSIs db did pid f1d f2d))
    (sortByDateDesc Sale.date (filterSales db did pid f1d f2d))

/-- Date resolution of the dashboard route (lines 198-205): each bound defaults
to today, and both parses share one `try` whose handler resets both to today on
failure. -/
def dashboardDates (f1 f2 : Option String) (today : SDate) : SDate × SDate :=
  match parseOrToday? f1 today, parseOrToday? f2 today with
  | some a, some b => (a, b)
  | _, _ => (today, today)

/- -------------------- Sorting lemmas -------------------- -/

theorem insDesc_perm {α : Type} (dkey : α → SDate) (r : α) :
    ∀ l : List α, List.Perm (insDesc dkey r l) (r :: l)
  | [] => List.Perm.refl _
  | x :: xs => by
    unfold insDesc
    by_cases h : SDate.ltb (dkey x) (dkey r) = true
    · rw [if_pos h]
    · rw [if_neg h]
      exact ((insDesc_perm dkey r xs).cons x).trans (List.Perm.swap r x xs)

theorem sort_foldl_perm {α : Type} (dkey : α → SDate) :
    ∀ (l acc : List α),
      List.Perm (l.foldl (fun a r => insDesc dkey r a) acc) (acc ++ l)
  | [], acc => by simp
  | r :: l, acc => by
    simp only [List.foldl_cons]
    exact (sort_foldl_perm dkey l (insDesc dkey r acc)).trans
      (((insDesc_perm dkey r acc).append_right l).trans List.perm_middle.symm)

theorem sortByDateDesc_perm {α : Type} (dkey : α → SDate) (l : List α) :
    List.Perm (sortByDateDesc dkey l) l := by
  simpa [sortByDateDesc] using sort_foldl_perm dkey l []

/-- The output order the spec promises: dates descending, and among rows of
equal date a tagged (sale) row never precedes an untagged (stock-in) row. -/
def RowOrder {α : Type} (dkey : α → SDate) (tag : α → Bool) (a b : α) : Prop :=
  SDate.leb (dkey b) (dkey a) = true ∧ (dkey a = dkey b → tag a = true → tag b = true)

theorem pairwise_insDesc {α : Type} (dkey : α → SDate) (tag : α → Bool) (r : α) :
    ∀ l : List α, l.Pairwise (RowOrder dkey tag) →
      (∀ x ∈ l, dkey x = dkey r → tag x = true → tag r = true) →
      (insDesc dkey r l).Pairwise (RowOrder dkey tag)
  | [], _, _ => by simp [insDesc]
  | x :: xs, hp, hr => by
    unfold insDesc
    rcases List.pairwise_cons.mp hp with ⟨hx, hxs⟩
    by_cases h : SDate.ltb (dkey x) (dkey r) = true
    · rw [if_pos h]
      refine List.pairwise_cons.mpr ⟨?_, hp⟩
      intro y hy
      rcases List.mem_cons.mp hy with rfl | hy2
      · exact ⟨SDate.ltb_leb h, fun he _ => absurd he.symm (SDate.ltb_ne h)⟩
      · have hxy := hx y hy2
        have hlt : SDate.ltb (dkey y) (dkey r) = true := SDate.leb_ltb_trans hxy.1 h
        exact ⟨SDate.ltb_leb hlt, fun he _ => absurd he.symm (SDate.ltb_ne hlt)⟩
    · rw [if_neg h]
      refine List.pairwise_cons.mpr
        ⟨?_, pairwise_insDesc dkey tag r xs hxs
          (fun z hz => hr z (List.mem_cons_of_mem x hz))⟩
      intro y hy
      have hy' := ((insDesc_perm dkey r xs).mem_iff).mp hy
      rcases List.mem_cons.mp hy' with rfl | hy2
      · exact ⟨SDate.not_ltb_leb (by simpa using h), hr x (List.mem_cons_self x xs)⟩
      · exact hx y hy2

theorem pairwise_sort_aux {α : Type} (dkey : α → SDate) (tag : α → Bool) :
    ∀ (l acc : List α), acc.Pairwise (RowOrder dkey tag) →
      l.Pairwise (fun a b => dkey a = dkey b → tag a = true → tag b = true) →
      (∀ r ∈ l, ∀ x ∈ acc, dkey x = dkey r → tag x = true → tag r = true) →
      (l.foldl (fun a r => insDesc dkey r a) acc).Pairwise (RowOrder dkey tag)
  | [], _, hacc, _, _ => hacc
  | r :: l, acc, hacc, hl, hcross => by
    simp only [List.foldl_cons]
    rcases List.pairwise_cons.mp hl with ⟨hrl, hl'⟩
    refine pairwise_sort_aux dkey tag l (insDesc dkey r acc)
      (pairwise_insDesc dkey tag r acc hacc
        (fun x hx => hcross r (List.mem_cons_self r l) x hx))
      hl' ?_
    intro r' hr' x hx
    rcases List.mem_cons.mp (((insDesc_perm dkey r acc).mem_iff).mp hx) with rfl | hx2
    · exact hrl r' hr'
    · exact hcross r' (List.mem_cons_of_mem r hr') x hx2

theorem pairwise_sortByDateDesc {α : Type} (dkey : α → SDate) (tag : α → Bool)
    (l : List α)
    (hl : l.Pairwise fun a b => dkey a = dkey b → tag a = true → tag b = true) :
    (sortByDateDesc dkey l).Pairwise (RowOrder dkey tag) :=
  pairwise_sort_aux dkey tag l [] List.Pairwise.nil hl (by simp)

/- -------------------- Report phase lemmas -------------------- -/

/-- Shape of every stock-in report row. -/
def siShape (r : ReportRow) : Prop :=
  r.out_qty = 0 ∧ r.sell_price = none ∧ r.profit = 0

/-- Correspondence between a filtered sale and its report row: the row's
numbers come from the sale event and the product's CURRENT cost price. -/
def saleRowRel (db : DB) (s : Sale) (r : ReportRow) : Prop :=
  ∃ p, findProduct db s.product_id = some p ∧
    r.in_qty = 0 ∧ r.out_qty = s.qty ∧ r.sell_price = some s.selling_price ∧
    r.cost_price = p.cost_price ∧ r.profit = s.qty * (s.selling_price - p.cost_price)

theorem forall₂_mem_right {α β : Type} {R : α → β → Prop} {as : List α} {bs : List β}
    (h : List.Forall₂ R as bs) : ∀ b ∈ bs, ∃ a ∈ as, R a b := by
  induction h with
  | nil => simp
  | cons hR hF ih =>
    intro b hb
    rcases List.mem_cons.mp hb with rfl | hb2
    · exact ⟨_, List.mem_cons_self _ _, hR⟩
    · rcases ih b hb2 with ⟨a, ha, hr⟩
      exact ⟨a, List.mem_cons_of_mem _ ha, hr⟩

theorem siPhase_spec (db : DB) :
    ∀ (sis : List StockIn) (acc acc' : List ReportRow × Totals),
      sis.foldlM (siStep db) acc = some acc' →
      (∃ nr, acc'.1 = acc.1 ++ nr ∧ (∀ r ∈ nr, siShape r)) ∧
      acc'.2.in_qty = acc.2.in_qty + (sis.map StockIn.qty).sum ∧
      acc'.2.cost_val = acc.2.cost_val + (sis.map fun e => e.qty * e.cost_price).sum ∧
      acc'.2.out_qty = acc.2.out_qty ∧
      acc'.2.sell_val = acc.2.sell_val ∧
      acc'.2.profit = acc.2.profit
  | [], acc, acc', h => by
    simp only [List.foldlM_nil, Option.pure_def, Option.some.injEq] at h
    subst h
    exact ⟨⟨[], by simp, by simp⟩, by simp, by simp, rfl, rfl, rfl⟩
  | e :: es, acc, acc', h => by
    rw [List.foldlM_cons] at h
    cases hstep : siStep db acc e with
    | none => rw [hstep] at h; exact absurd h (by simp)
    | some a1 =>
      rw [hstep] at h
      simp only [Option.bind_eq_bind, Option.some_bind] at h
      unfold siStep at hstep
      cases hdy : findDairy db e.dairy_id with
      | none => rw [hdy] at hstep; exact absurd hstep (by simp)
      | some dy =>
        rw [hdy] at hstep
        simp only [Option.bind_eq_bind, Option.some_bind] at hstep
        cases hpr : findProduct db e.product_id with
        | none => rw [hpr] at hstep; exact absurd hstep (by simp)
        | some p =>
          rw [hpr] at hstep
          simp only [Option.bind_eq_bind, Option.some_bind, Option.pure_def, Option.some.injEq] at hstep
          subst hstep
          have ih := siPhase_spec db es _ acc' h
          refine ⟨?_, ?_, ?_, ?_, ?_, ?_⟩
          · rcases ih.1 with ⟨nr, hnr, hshape⟩
            refine ⟨{ dairy := dy.name, logo := dy.logo_path, date := e.date,
                      product := p.name, in_qty := e.qty, out_qty := 0,
                      cost_price := e.cost_price, sell_price := none, profit := 0,
                      remarks := e.remarks } :: nr, ?_, ?_⟩
            · rw [hnr]
              simp
            · intro r hrm
              rcases List.mem_cons.mp hrm with rfl | hrm2
              · exact ⟨rfl, rfl, rfl⟩
              · exact hshape r hrm2
          · rw [ih.2.1]
            simp only [List.map_cons, List.sum_cons]
            ring
          · rw [ih.2.2.1]
            simp only [List.map_cons, List.sum_cons]
            ring
          · rw [ih.2.2.2.1]
          · rw [ih.2.2.2.2.1]
          · rw [ih.2.2.2.2.2]

theorem salePhase_spec (db : DB) :
    ∀ (ss : List Sale) (acc acc' : List ReportRow × Totals),
      ss.foldlM (saleStep db) acc = some acc' →
      (∃ nr, acc'.1 = acc.1 ++ nr ∧ List.Forall₂ (saleRowRel db) ss nr ∧
         acc'.2.profit = acc.2.profit + (nr.map ReportRow.profit).sum) ∧
      acc'.2.out_qty = acc.2.out_qty + (ss.map Sale.qty).sum ∧
      acc'.2.sell_val = acc.2.sell_val + (ss.map fun s => s.qty * s.selling_price).sum ∧
      acc'.2.in_qty = acc.2.in_qty ∧
      acc'.2.cost_val = acc.2.cost_val
  | [], acc, acc', h => by
    simp only [List.foldlM_nil, Option.pure_def, Option.some.injEq] at h
    subst h
    exact ⟨⟨[], by simp, List.Forall₂.nil, by simp⟩, by simp, by simp, rfl, rfl⟩
  | s :: ss, acc, acc', h => by
    rw [List.foldlM_cons] at h
    cases hstep : saleStep db acc s with
    | none => rw [hstep] at h; exact absurd h (by simp)
    | some a1 =>
      rw [hstep] at h
      simp only [Option.bind_eq_bind, Option.some_bind] at h
      unfold saleStep at hstep
      cases hdy : findDairy db s.dairy_id with
      | none => rw [hdy] at hstep; exact absurd hstep (by simp)
      | some dy =>
        rw [hdy] at hstep
        simp only [Option.bind_eq_bind, Option.some_bind] at hstep
        cases hpr : findProduct db s.product_id with
        | none => rw [hpr] at hstep; exact absurd hstep (by simp)
        | some p =>
          rw [hpr] at hstep
          simp only [Option.bind_eq_bind, Option.some_bind, Option.pure_def, Option.some.injEq] at hstep
          subst hstep
          have ih := salePhase_spec db ss _ acc' h
          refine ⟨?_, ?_, ?_, ?_, ?_⟩
          · rcases ih.1 with ⟨nr, hnr, hrel, hprof⟩
            refine ⟨{ dairy := dy.name, logo := dy.logo_path, date := s.date,
                      product := p.name, in_qty := 0, out_qty := s.qty,
                      cost_price := p.cost_price, sell_price := some s.selling_price,
                      profit := s.qty * (s.selling_price - p.cost_price),
                      remarks := s.remarks } :: nr, ?_, ?_, ?_⟩
            · rw [hnr]
              simp
            · exact List.Forall₂.cons ⟨p, hpr, rfl, rfl, rfl, rfl, rfl⟩ hrel
            · rw [hprof]
              simp only [List.map_cons, List.sum_cons]
              ring
          · rw [ih.2.1]
            simp only [List.map_cons, List.sum_cons]
            ring
          · rw [ih.2.2.1]
            simp only [List.map_cons, List.sum_cons]
            ring
          · rw [ih.2.2.2.1]
          · rw [ih.2.2.2.2]

/-- Master correctness lemma for the aggregation pass: totals are the sums over
the supplied (filtered) event lists, stock-in rows have zero out-quantity and
profit, sale rows carry the event's quantity/price and the profit computed from
the product's current cost, and the output is date-descending with stock-in
rows before sale rows on date ties. -/
theorem reportsCore_spec (db : DB) (sis : List StockIn) (ss : List Sale)
    (rows : List ReportRow) (t : Totals)
    (h : reportsCore db sis ss = some (rows, t)) :
    t.in_qty = (sis.map StockIn.qty).sum ∧
    t.cost_val = (sis.map fun e => e.qty * e.cost_price).sum ∧
    t.out_qty = (ss.map Sale.qty).sum ∧
    t.sell_val = (ss.map fun s => s.qty * s.selling_price).sum ∧
    t.profit = (rows.map ReportRow.profit).sum ∧
    (∀ r ∈ rows, r.sell_price = none → r.out_qty = 0 ∧ r.profit = 0) ∧
    (∀ r ∈ rows, ∀ sp, r.sell_price = some sp →
       ∃ s ∈ ss, ∃ p, findProduct db s.product_id = some p ∧
         r.out_qty = s.qty ∧ sp = s.selling_price ∧ r.cost_price = p.cost_price ∧
         r.profit = s.qty * (s.selling_price - p.cost_price)) ∧
    rows.Pairwise (RowOrder ReportRow.date (fun r => r.sell_price.isSome)) := by
  unfold reportsCore at h
  cases h1 : sis.foldlM (siStep db) ([], Totals.init) with
  | none => rw [h1] at h; exact absurd h (by simp)
  | some acc1 =>
    rw [h1] at h
    simp only [Option.bind_eq_bind, Option.some_bind] at h
    cases h2 : ss.foldlM (saleStep db) acc1 with
    | none => rw [h2] at h; exact absurd h (by simp)
    | some acc2 =>
      rw [h2] at h
      simp only [Option.bind_eq_bind, Option.some_bind, Option.pure_def,
        Option.some.injEq, Prod.mk.injEq] at h
      obtain ⟨hrows, ht⟩ := h
      subst hrows
      subst ht
      have hsi := siPhase_spec db sis ([], Totals.init) acc1 h1
      have hsale := salePhase_spec db ss acc1 acc2 h2
      rcases hsi.1 with ⟨nr1, hacc1, hshape⟩
      rcases hsale.1 with ⟨nr2, hacc2, hrel, hprof⟩
      simp only [List.nil_append] at hacc1
      have hsplit : acc2.1 = nr1 ++ nr2 := by rw [hacc2, hacc1]
      have hperm : List.Perm (sortByDateDesc ReportRow.date acc2.1) acc2.1 :=
        sortByDateDesc_perm _ _
      have hmem : ∀ r, r ∈ sortByDateDesc ReportRow.date acc2.1 ↔ r ∈ nr1 ++ nr2 := by
        intro r
        rw [hperm.mem_iff, hsplit]
      have hnr1sum : (nr1.map ReportRow.profit).sum = 0 := by
        apply List.sum_eq_zero
        intro x hx
        rcases List.mem_map.mp hx with ⟨r, hr, rfl⟩
        exact (hshape r hr).2.2
      refine ⟨?_, ?_, ?_, ?_, ?_, ?_, ?_, ?_⟩
      · rw [hsale.2.2.2.1, hsi.2.1]
        simp [Totals.init]
      · rw [hsale.2.2.2.2, hsi.2.2.1]
        simp [Totals.init]
      · rw [hsale.2.1, hsi.2.2.2.1]
        simp [Totals.init]
      · rw [hsale.2.2.1, hsi.2.2.2.2.1]
        simp [Totals.init]
      · rw [hprof, hsi.2.2.2.2.2]
        have hps := (hperm.map ReportRow.profit).sum_eq
        rw [hps, hsplit, List.map_append, List.sum_append, hnr1sum]
        simp [Totals.init]
      · intro r hr hnone
        rcases List.mem_append.mp ((hmem r).mp hr) with h1m | h2m
        · exact ⟨(hshape r h1m).1, (hshape r h1m).2.2⟩
        · rcases forall₂_mem_right hrel r h2m with ⟨s, hs, p, hp, hrest⟩
          rw [hrest.2.2.1] at hnone
          exact absurd hnone (by simp)
      · intro r hr sp hsp
        rcases List.mem_append.mp ((hmem r).mp hr) with h1m | h2m
        · rw [(hshape r h1m).2.1] at hsp
          exact absurd hsp (by simp)
        · rcases forall₂_mem_right hrel r h2m with ⟨s, hs, p, hp, hin, hout, hsell, hcost, hpr⟩
          rw [hsell] at hsp
          injection hsp with hsp
          exact ⟨s, hs, p, hp, hout, hsp.symm, hcost, hpr⟩
      · apply pairwise_sortByDateDesc
        rw [hsplit]
        apply List.pairwise_append.mpr
        refine ⟨?_, ?_, ?_⟩
        · apply List.pairwise_of_forall_mem_list
          intro a ha b _ _ hta
          exact absurd hta (by simp [(hshape a ha).2.1])
        · apply List.pairwise_of_forall_mem_list
          intro a _ b hb _ _
          rcases forall₂_mem_right hrel b hb with ⟨s, hs, p, hp, hin, hout, hsell, hrest⟩
          simp [hsell]
        · intro a ha b hb _ hta
          exact absurd hta (by simp [(hshape a ha).2.1])

/- -------------------- Pagination lemmas -------------------- -/

theorem length_le_total_pages_mul {α : Type} (rows : List α) :
    rows.length ≤ total_pages rows * 10 := by
  unfold total_pages
  by_cases h : rows.isEmpty
  · rw [if_pos h]
    have : rows = [] := by simpa [List.isEmpty_iff] using h
    simp [this]
  · rw [if_neg h]
    have hd := Nat.div_add_mod (rows.length + 10 - 1) 10
    have hm : (rows.length + 10 - 1) % 10 < 10 := Nat.mod_lt _ (by norm_num)
    omega

theorem paginate_pos {α : Type} (rows : List α) (i : ℕ) :
    paginate rows ((i : ℤ) + 1) = (rows.drop (i * 10)).take 10 := by
  unfold paginate pySlice pyIndex
  have h1 : ¬ (((i : ℤ) + 1 - 1) * 10 < 0) := by omega
  have h2 : ¬ (((i : ℤ) + 1 - 1) * 10 + 10 < 0) := by omega
  rw [if_neg h2, if_neg h1]
  rw [show ((((i : ℤ) + 1 - 1) * 10).toNat) = i * 10 from by omega]
  rw [show ((((i : ℤ) + 1 - 1) * 10 + 10).toNat) = i * 10 + 10 from by omega]
  by_cases hs : i * 10 ≤ rows.length
  · rw [min_eq_left hs]
    rw [show rows.take (min (i * 10 + 10) rows.length) = rows.take (i * 10 + 10) from by
      rw [List.take_eq_take]
      omega]
    rw [List.drop_take]
    congr 1
    omega
  · have hlen : rows.length ≤ i * 10 := by omega
    rw [min_eq_right hlen]
    rw [List.drop_eq_nil_of_le (by simp)]
    rw [List.drop_eq_nil_of_le hlen]
    simp

theorem flatten_chunks {α : Type} :
    ∀ (k : ℕ) (l : List α), l.length ≤ k * 10 →
      ((List.range k).map (fun i => (l.drop (i * 10)).take 10)).flatten = l
  | 0, l, h => by
    have : l = [] := List.eq_nil_of_length_eq_zero (by omega)
    simp [this]
  | k + 1, l, h => by
    rw [List.range_succ_eq_map]
    simp only [List.map_cons, List.map_map, List.flatten_cons, Nat.zero_mul, List.drop_zero]
    have hcongr : (List.range k).map ((fun i => (l.drop (i * 10)).take 10) ∘ Nat.succ) =
        (List.range k).map (fun i => ((l.drop 10).drop (i * 10)).take 10) := by
      apply List.map_congr_left
      intro i _
      simp only [Function.comp_apply]
      rw [List.drop_drop]
      congr 2
      omega
    rw [hcongr, flatten_chunks k (l.drop 10) (by simp; omega)]
    exact List.take_append_drop 10 l

/-- C6: pagination uses the fixed page size 10 and a 1-based page index;
`total_pages` is `ceil(row_count / 10)` with minimum 1; pages `1..total_pages`
concatenate back to the full row set (no gaps, no overlaps); every slice has
at most 10 rows; and a page index past the end yields the empty slice. -/
theorem pagination_spec {α : Type} (rows : List α) :
    1 ≤ total_pages rows ∧
    total_pages rows = max 1 ((rows.length + 9) / 10) ∧
    ((List.range (total_pages rows)).map (fun (i : ℕ) => paginate rows ((i : ℤ) + 1))).flatten
      = rows ∧
    (∀ p : ℤ, (paginate rows p).length ≤ 10) ∧
    (∀ p : ℤ, (total_pages rows : ℤ) < p → paginate rows p = []) := by
  refine ⟨?_, ?_, ?_, ?_, ?_⟩
  · unfold total_pages
    by_cases h : rows.isEmpty
    · rw [if_pos h]
    · rw [if_neg h]
      have hne : rows ≠ [] := by simpa [List.isEmpty_iff] using h
      have hlen : 1 ≤ rows.length := List.length_pos.mpr hne
      rw [Nat.le_div_iff_mul_le (by norm_num)]
      omega
  · unfold total_pages
    by_cases h : rows.isEmpty
    · rw [if_pos h]
      have : rows = [] := by simpa [List.isEmpty_iff] using h
      simp [this]
    · rw [if_neg h]
      have hne : rows ≠ [] := by simpa [List.isEmpty_iff] using h
      have hlen : 1 ≤ rows.length := List.length_pos.mpr hne
      have h1 : 1 ≤ (rows.length + 9) / 10 := by
        rw [Nat.le_div_iff_mul_le (by norm_num)]
        omega
      have h2 : rows.length + 10 - 1 = rows.length + 9 := by omega
      rw [h2, max_eq_right h1]
  · rw [List.map_congr_left (fun i _ => paginate_pos rows i)]
    exact flatten_chunks (total_pages rows) rows (length_le_total_pages_mul rows)
  · intro p
    unfold paginate pySlice pyIndex
    by_cases h1 : (p - 1) * 10 < 0 <;> by_cases h2 : (p - 1) * 10 + 10 < 0 <;>
      simp only [h1, h2, if_true, if_false, List.length_drop, List.length_take] <;>
      omega
  · intro p hp
    have htp : 1 ≤ total_pages rows := by
      unfold total_pages
      by_cases h : rows.isEmpty
      · rw [if_pos h]
      · rw [if_neg h]
        have hne : rows ≠ [] := by simpa [List.isEmpty_iff] using h
        have hlen : 1 ≤ rows.length := List.length_pos.mpr hne
        rw [Nat.le_div_iff_mul_le (by norm_num)]
        omega
    have hmul := length_le_total_pages_mul rows
    unfold paginate pySlice pyIndex
    have h1 : ¬ ((p - 1) * 10 < 0) := by omega
    have h2 : ¬ ((p - 1) * 10 + 10 < 0) := by omega
    rw [if_neg h1, if_neg h2]
    have hge : rows.length ≤ ((p - 1) * 10).toNat := by omega
    rw [min_eq_right hge]
    exact List.drop_eq_nil_of_le (by simp)

/-- Twelve sample rows, spanning two report pages. -/
def rows12 : List ℕ := [0, 1, 2, 3, 4, 5, 6, 7, 8, 9, 10, 11]

theorem pagination_spec_witness :
    (((List.range (total_pages rows12)).map
        (fun (i : ℕ) => paginate rows12 ((i : ℤ) + 1))).flatten = rows12) ∧
    paginate rows12 5 = [] :=
  ⟨(pagination_spec rows12).2.2.1, (pagination_spec rows12).2.2.2.2 5 (by decide)⟩

/- -------------------- Report claim theorems -------------------- -/

/-- C3: for every filter combination (tenant, product, date range) the report
totals equal the sums over the filtered row set — total stock-in qty is
`Σ stock-in qty`, total cost value `Σ stock-in qty × cost`, total stock-out
qty `Σ sale qty`, total sell value `Σ sale qty × price`, total profit the sum
of the row profits — every stock-in row has profit 0, and every sale row's
profit is `qty * (sell_price - cost_price)` with the owning product's CURRENT
cost price. -/
theorem report_totals_correct (db : DB) (req : ReportReq) (sess : Sess) (today : SDate)
    (res : ReportResult) (sis : List StockIn) (ss : List Sale)
    (hsis : sis = filterSIs db (reportDairyFilter db req sess) (reportProductFilter req)
        (reportDates req today).1 (reportDates req today).2)
    (hss : ss = filterSales db (reportDairyFilter db req sess) (reportProductFilter req)
        (reportDates req today).1 (reportDates req today).2)
    (h : reports db req sess today = some res) :
    res.totals.in_qty = (sis.map StockIn.qty).sum ∧
    res.totals.cost_val = (sis.map fun e => e.qty * e.cost_price).sum ∧
    res.totals.out_qty = (ss.map Sale.qty).sum ∧
    res.totals.sell_val = (ss.map fun s => s.qty * s.selling_price).sum ∧
    res.totals.profit = (res.rows.map ReportRow.profit).sum ∧
    (∀ r ∈ res.rows, r.sell_price = none → r.out_qty = 0 ∧ r.profit = 0) ∧
    (∀ r ∈ res.rows, ∀ sp, r.sell_price = some sp →
       ∃ s ∈ ss, ∃ p, findProduct db s.product_id = some p ∧
         r.out_qty = s.qty ∧ sp = s.selling_price ∧ r.cost_price = p.cost_price ∧
         r.profit = s.qty * (s.selling_price - p.cost_price)) := by
  unfold reports reportsFor at h
  rw [← hsis, ← hss] at h
  cases hrc : reportsCore db sis ss with
  | none => rw [hrc] at h; exact absurd h (by simp)
  | some rt =>
    rw [hrc] at h
    simp only [Option.bind_eq_bind, Option.some_bind, Option.pure_def, Option.some.injEq] at h
    subst h
    obtain ⟨c1, c2, c3, c4, c5, c6, c7, c8⟩ :=
      reportsCore_spec db sis ss rt.1 rt.2 (by rw [hrc])
    exact ⟨c1, c2, c3, c4, c5, c6, c7⟩

theorem reportsFor_pairwise (db : DB) (did pid : Option ℕ) (f1d f2d : Option SDate)
    (page : ℤ) (res : ReportResult)
    (h : reportsFor db did pid f1d f2d page = some res) :
    res.rows.Pairwise (RowOrder ReportRow.date (fun r => r.sell_price.isSome)) := by
  unfold reportsFor at h
  cases hrc : reportsCore db (filterSIs db did pid f1d f2d) (filterSales db did pid f1d f2d) with
  | none => rw [hrc] at h; exact absurd h (by simp)
  | some rt =>
    rw [hrc] at h
    simp only [Option.bind_eq_bind, Option.some_bind, Option.pure_def, Option.some.injEq] at h
    subst h
    exact (reportsCore_spec db _ _ rt.1 rt.2 (by rw [hrc])).2.2.2.2.2.2.2

/-- C9: the produced report row list is sorted by date descending, and among
rows sharing a date a sale row never precedes a stock-in row (all stock-in rows
of a date come first, stable by construction order); likewise for the PDF
report's row list. -/
theorem report_rows_sorted (db : DB) :
    (∀ (req : ReportReq) (sess : Sess) (today : SDate) (res : ReportResult),
       reports db req sess today = some res →
       res.rows.Pairwise (RowOrder ReportRow.date (fun r => r.sell_price.isSome))) ∧
    (∀ (did pid : Option ℕ) (f1d f2d : Option SDate) (rows : List ReportRow) (t : Totals),
       reportsPdfCore db did pid f1d f2d = some (rows, t) →
       rows.Pairwise (RowOrder ReportRow.date (fun r => r.sell_price.isSome))) := by
  constructor
  · intro req sess today res h
    exact reportsFor_pairwise db _ _ _ _ _ res h
  · intro did pid f1d f2d rows t h
    exact (reportsCore_spec db _ _ rows t h).2.2.2.2.2.2.2

/-- Two-tenant store with one product per tenant and a sale recorded by the
second tenant. -/
def db4 : DB :=
  { dairies := [⟨1, "A", none⟩, ⟨2, "B", none⟩],
    products := [⟨1, 1, "Milk", "litre", 40, 50, 0, 70⟩, ⟨2, 2, "Ghee", "kg", 10, 15, 0, 5⟩],
    stock_ins := [],
    sales := [⟨1, 2, 2, 1, 15, ⟨2024, 1, 5⟩, ""⟩] }

/-- Report request issued while tenant 1 is logged in, asking for tenant 2's
data via the `dairy` parameter. -/
def req4 : ReportReq :=
  { fromP := none, toP := none, productP := none, dairyP := some "2", page := 1 }

/-- The report result the code produces for `db4` / `req4`. -/
def res4 : ReportResult :=
  { rows := [⟨"B", none, ⟨2024, 1, 5⟩, "Ghee", 0, 1, 10, some 15, 5, ""⟩],
    pageRows := [⟨"B", none, ⟨2024, 1, 5⟩, "Ghee", 0, 1, 10, some 15, 5, ""⟩],
    totals := ⟨0, 1, 0, 15, 5⟩,
    totalPages := 1 }

theorem reports_db4_eval :
    reports db4 req4 ⟨false, some 1⟩ ⟨2024, 1, 5⟩ = some res4 := by
  have hn : strToNat? "2" = some 2 := by decide
  simp [reports, reportsFor, reportDairyFilter, reportProductFilter, reportDates,
    parseOrToday?, pyStrVal, hn, currentDairy, findDairy, findProduct, filterSIs,
    filterSales, reportsCore, siStep, saleStep, sortByDateDesc, insDesc, paginate,
    pySlice, pyIndex, total_pages, Totals.init, db4, req4, res4, SDate.leb]
  norm_num

theorem report_totals_correct_witness :
    res4.totals.in_qty = (([] : List StockIn).map StockIn.qty).sum ∧
    res4.totals.cost_val = (([] : List StockIn).map fun e => e.qty * e.cost_price).sum ∧
    res4.totals.out_qty =
      (([⟨1, 2, 2, 1, 15, ⟨2024, 1, 5⟩, ""⟩] : List Sale).map Sale.qty).sum ∧
    res4.totals.sell_val =
      (([⟨1, 2, 2, 1, 15, ⟨2024, 1, 5⟩, ""⟩] : List Sale).map
        fun s => s.qty * s.selling_price).sum ∧
    res4.totals.profit = (res4.rows.map ReportRow.profit).sum ∧
    (∀ r ∈ res4.rows, r.sell_price = none → r.out_qty = 0 ∧ r.profit = 0) ∧
    (∀ r ∈ res4.rows, ∀ sp, r.sell_price = some sp →
       ∃ s ∈ ([⟨1, 2, 2, 1, 15, ⟨2024, 1, 5⟩, ""⟩] : List Sale), ∃ p,
         findProduct db4 s.product_id = some p ∧
         r.out_qty = s.qty ∧ sp = s.selling_price ∧ r.cost_price = p.cost_price ∧
         r.profit = s.qty * (s.selling_price - p.cost_price)) :=
  report_totals_correct db4 req4 ⟨false, some 1⟩ ⟨2024, 1, 5⟩ res4 []
    [⟨1, 2, 2, 1, 15, ⟨2024, 1, 5⟩, ""⟩] rfl rfl reports_db4_eval

theorem report_rows_sorted_witness :
    res4.rows.Pairwise (RowOrder ReportRow.date (fun r => r.sell_price.isSome)) :=
  (report_rows_sorted db4).1 req4 ⟨false, some 1⟩ ⟨2024, 1, 5⟩ res4 reports_db4_eval

/-- C4 failing input: with tenant 1 ("A") logged in and no admin
authentication, a report request carrying `dairy=2` returns tenant 2's ("B")
rows — the request-supplied tenant id simply overrides the caller's own
tenant, and `current_user.is_authenticated` is never checked on this path. -/
theorem reports_cross_tenant_leak :
    (currentDairy db4 ⟨false, some 1⟩).map Dairy.name = some "A" ∧
    (reports db4 req4 ⟨false, some 1⟩ ⟨2024, 1, 5⟩).map
      (fun res => res.rows.map ReportRow.dairy) = some ["B"] := by
  constructor
  · rfl
  · rw [reports_db4_eval]
    rfl

/-- C8 counterexample: a stock-in create carrying the malformed date string
"banana" fails with an internal error (an uncaught `ValueError`) instead of
proceeding with today's date. -/
theorem malformed_date_entry_fails :
    stock_in_page dbW 1 ⟨2024, 1, 1⟩ 1 1 5 5 (some "banana") "" = .error .internal := by
  have hd : parseOrToday? (some "banana") ⟨2024, 1, 1⟩ = none := by decide
  simp [stock_in_page, hd]

/-- C8 amended: a malformed date string is handled per route, not uniformly:
the dashboard falls back to today for both bounds; the report listing drops
both date filters entirely (every date passes); the entry routes — stock-in
and sale create and both edits — fail with an error.  Only a missing or empty
date string falls back to today on the create forms. -/
theorem malformed_date_per_route (s : String) (hne : s ≠ "") (hbad : parseDate s = none) :
    (∀ (f2 : Option String) (today : SDate),
       dashboardDates (some s) f2 today = (today, today)) ∧
    (∀ (req : ReportReq) (today : SDate), req.fromP = some s →
       reportDates req today = (none, none)) ∧
    (∀ (db : DB) (d : ℕ) (today : SDate) (newId pid : ℕ) (q c : ℚ) (rm : String),
       stock_in_page db d today newId pid q c (some s) rm = .error .internal) ∧
    (∀ (db : DB) (d : ℕ) (today : SDate) (newId pid : ℕ) (q c : ℚ) (rm : String),
       sales_page db d today newId pid q c (some s) rm = .error .internal) ∧
    (∀ (db db' : DB) (d sid : ℕ) (q c : ℚ) (rm : String),
       edit_stock_in db d sid q c (some s) rm ≠ .ok db') ∧
    (∀ (db db' : DB) (d sid : ℕ) (q c : ℚ) (rm : String),
       edit_sale db d sid q c (some s) rm ≠ .ok db') ∧
    (∀ today : SDate, parseOrToday? none today = some today) ∧
    (∀ today : SDate, parseOrToday? (some "") today = some today) := by
  have hot : ∀ today : SDate, parseOrToday? (some s) today = none := by
    intro today
    simp [parseOrToday?, pyStrVal, hne, hbad]
  refine ⟨?_, ?_, ?_, ?_, ?_, ?_, ?_, ?_⟩
  · intro f2 today
    cases h2 : parseOrToday? f2 today <;>
      simp [dashboardDates, hot today, h2]
  · intro req today hfrom
    cases h2 : parseOrToday? req.toP today <;>
      simp [reportDates, hfrom, hot today, h2]
  · intro db d today newId pid q c rm
    simp [stock_in_page, hot today]
  · intro db d today newId pid q c rm
    simp [sales_page, hot today]
  · intro db db' d sid q c rm h
    unfold edit_stock_in at h
    cases hfind : findStockIn db sid with
    | none => rw [hfind] at h; exact absurd h (by simp)
    | some st =>
      rw [hfind] at h
      dsimp only at h
      by_cases hown : st.dairy_id ≠ d
      · rw [if_pos hown] at h; exact absurd h (by simp)
      · rw [if_neg hown] at h
        rw [show parseFormDate (some s) = none from by simp [parseFormDate, hbad]] at h
        exact absurd h (by simp)
  · intro db db' d sid q c rm h
    unfold edit_sale at h
    cases hfind : findSale db sid with
    | none => rw [hfind] at h; exact absurd h (by simp)
    | some sl =>
      rw [hfind] at h
      dsimp only at h
      by_cases hown : sl.dairy_id ≠ d
      · rw [if_pos hown] at h; exact absurd h (by simp)
      · rw [if_neg hown] at h
        rw [show parseFormDate (some s) = none from by simp [parseFormDate, hbad]] at h
        exact absurd h (by simp)
  · intro today
    rfl
  · intro today
    rfl

theorem malformed_date_per_route_witness :
    dashboardDates (some "banana") none ⟨2024, 1, 1⟩ = (⟨2024, 1, 1⟩, ⟨2024, 1, 1⟩) ∧
    reportDates ⟨some "banana", none, none, none, 1⟩ ⟨2024, 1, 1⟩ = (none, none) ∧
    sales_page dbW 1 ⟨2024, 1, 1⟩ 1 1 5 5 (some "banana") "" = .error .internal :=
  ⟨(malformed_date_per_route "banana" (by decide) (by decide)).1 none ⟨2024, 1, 1⟩,
   (malformed_date_per_route "banana" (by decide) (by decide)).2.1
     ⟨some "banana", none, none, none, 1⟩ ⟨2024, 1, 1⟩ rfl,
   (malformed_date_per_route "banana" (by decide) (by decide)).2.2.2.1
     dbW 1 ⟨2024, 1, 1⟩ 1 1 5 5 ""⟩

end DairyApp
